import Mathlib

/-!
A verification development for the `node-sass-extra` task-derivation pipeline
(the module whose reference snapshot is the ~700-line `index` file).

Modelling conventions:
* JavaScript strings are modelled as `List Char` (abbreviated `Str`);
  `str` converts a Lean string literal into that representation.
* The Node `path` module (posix flavour) is modelled explicitly:
  `pathResolve`, `pathJoin`, `basename`, `dirname`.
* Fallible JavaScript code (throw / Promise rejection) is modelled with
  `Except JsErr`.  External collaborators (the glob matcher, the node-sass
  compiler, the filesystem) are parameters collected in an `Env` record;
  they are deterministic oracles, matching the spec's black-box contract.
* JavaScript truthiness of the option fields is modelled by explicit
  `…Truthy` functions (absent = `none` = falsy, empty string falsy, …).
-/

namespace NodeSassExtra

/-- JavaScript strings, modelled as lists of characters. -/
abbrev Str := List Char

/-- Conversion from Lean string literals to the model's string type. -/
def str (s : String) : Str := s.data

/-- The apostrophe character (code 39), used by `joinSourceFiles`. -/
def apos : Char := Char.ofNat 39

/-- The newline character used as the join separator. -/
def nl : Char := Char.ofNat 10

/-! ## The path module (Node `path`, posix flavour) -/

/-- Split a string on `/` separators.  Always returns a non-empty list. -/
def splitSlash : Str → List Str
  | [] => [[]]
  | c :: cs =>
    match splitSlash cs with
    | [] => [[c]]
    | s :: ss => if c = '/' then [] :: s :: ss else (c :: s) :: ss

/-- Path-segment normalization: drops empty and `.` segments and applies
`..` segments to the segment stack.  `absRoot = true` gives the absolute
semantics (`..` at the root is dropped); `false` the relative semantics
(leading `..` segments accumulate).  The first argument is the
already-processed stack, in reverse order. -/
def normSegs (absRoot : Bool) : List Str → List Str → List Str
  | stack, [] => stack.reverse
  | stack, sg :: rest =>
    if sg = [] ∨ sg = str "." then normSegs absRoot stack rest
    else if sg = str ".." then
      match stack with
      | [] => if absRoot then normSegs absRoot [] rest else normSegs absRoot [sg] rest
      | top :: st' =>
        if top = str ".." then normSegs absRoot (sg :: stack) rest
        else normSegs absRoot st' rest
    else normSegs absRoot (sg :: stack) rest

/-- Join path segments with `/` separators. -/
def joinSegs : List Str → Str
  | [] => []
  | [s] => s
  | s :: ss => s ++ '/' :: joinSegs ss

/-- Whether a path is absolute (starts with `/`). -/
def isAbsolute : Str → Bool
  | [] => false
  | c :: _ => c = '/'

/-- `path.resolve(p)` relative to the working directory `cwd`
(which Node takes from the process; here it is passed explicitly). -/
def pathResolve (cwd p : Str) : Str :=
  let full := if isAbsolute p then p else cwd ++ '/' :: p
  '/' :: joinSegs (normSegs true [] (splitSlash full))

/-- `path.join(a, b)`: concatenation plus relative normalization; the result
is `.` when everything cancels, and keeps a leading `/` when `a` had one. -/
def pathJoin (a b : Str) : Str :=
  let full := a ++ '/' :: b
  let r := joinSegs (normSegs false [] (splitSlash full))
  if r = [] then (if isAbsolute full then str "/" else str ".")
  else if isAbsolute full then '/' :: r else r

/-- Drop trailing `/` characters (helper for `basename`). -/
def dropTrailingSlashes (p : Str) : Str :=
  (p.reverse.dropWhile (fun c => c = '/')).reverse

/-- `path.basename(p)`: the final segment of the path, ignoring trailing
slashes. -/
def basename (p : Str) : Str :=
  match (splitSlash (dropTrailingSlashes p)).reverse with
  | [] => []
  | s :: _ => s

/-- `path.dirname(p)`: everything before the final segment; `.` when there
is no directory part, `/` for root children. -/
def dirname (p : Str) : Str :=
  let q := dropTrailingSlashes p
  match (splitSlash q).reverse with
  | [] => str "."
  | _ :: rest =>
    let d := joinSegs rest.reverse
    if d = [] then (if isAbsolute q then str "/" else str ".") else
    if d.all (fun c => c = '/') then str "/" else dropTrailingSlashes d

example : pathResolve (str "/w") (str "a.css") = str "/w/a.css" := by decide
example : pathResolve (str "/w") (str "/x/../a.css") = str "/a.css" := by decide
example : pathJoin (str "dest") (str "a.scss") = str "dest/a.scss" := by decide
example : pathJoin (str "dest") (str "..") = str "." := by decide
example : basename (str "src/sub/a.scss") = str "a.scss" := by decide
example : basename (str "dest/") = str "dest" := by decide
example : dirname (str "/d/x.css") = str "/d" := by decide
example : dirname (str "x.css") = str "." := by decide

/-! ## The two suffix predicates -/

/-- `isFile` — the permissive file-path predicate of the reference snapshot:
`/\.\S+$/.test(filePath)`, i.e. the string ends in a dot followed by one or
more non-whitespace characters. -/
def isFile : Str → Bool
  | [] => false
  | c :: rest =>
    (c = '.' && !rest.isEmpty && rest.all (fun x => !x.isWhitespace)) || isFile rest

/-- The stylesheet-extension family tested by the normalization regex
`/\.(s[ca]|c)ss$/`: a trailing `.sass`, `.scss` or `.css`. -/
def stylesheetSuffix (p : Str) : Bool :=
  decide ((str ".sass") <:+ p) || decide ((str ".scss") <:+ p) ||
    decide ((str ".css") <:+ p)

/-- `outFile.replace(/\.(s[ca]|c)ss$/, '.css')`: rewrite a trailing
stylesheet extension to `.css` (no-op on any other string). -/
def cssNormalize (p : Str) : Str :=
  if (str ".sass") <:+ p ∨ (str ".scss") <:+ p then p.take (p.length - 5) ++ str ".css"
  else p

/-- `sourceMap.replace(/(\.map)?$/, '.map')`: ensure a single trailing
`.map` suffix (append when absent, keep when present). -/
def mapNormalize (p : Str) : Str :=
  if (str ".map") <:+ p then p else p ++ str ".map"

example : isFile (str "foo.txt") = true := by decide
example : isFile (str "dest") = false := by decide
example : isFile (str "a.b c") = false := by decide
example : stylesheetSuffix (str "a.scss") = true := by decide
example : stylesheetSuffix (str "a.txt") = false := by decide
example : cssNormalize (str "d/a.sass") = str "d/a.css" := by decide
example : cssNormalize (str "d/a.txt") = str "d/a.txt" := by decide
example : mapNormalize (str "a.css") = str "a.css.map" := by decide
example : mapNormalize (str "a.map") = str "a.map" := by decide

/-! ## Data model -/

/-- The error kinds a pipeline run can surface.  `invalidOutput` is the
`Invalid output: "…" is not a valid file path` error thrown by `getOutFile`
(the spec's InvalidDestinationPath); `noInput` and `noOutputForSourceMap`
are the two `validateOptions` errors; `typeError` models a JavaScript
TypeError (reading a property of `undefined`, calling a string method on a
non-string); `ext` carries an error propagated verbatim from an external
collaborator (compiler, glob matcher or filesystem). -/
inductive JsErr where
  | invalidOutput (v : Str)
  | noInput
  | noOutputForSourceMap
  | typeError
  | ext (tag : Str)
deriving DecidableEq

/-- A `string | string[]` JavaScript value (the `data` and `file` options,
and the `sources` value flowing through `render`). -/
inductive OneOrMany where
  | one (s : Str)
  | many (l : List Str)
deriving DecidableEq

/-- `arrayify` (`[].concat(item)`) applied to a `string | string[]` value. -/
def OneOrMany.toList : OneOrMany → List Str
  | .one s => [s]
  | .many l => l

/-- JavaScript truthiness of a possibly-absent `string | string[]` value:
`undefined` and `''` are falsy; every array (even empty) is truthy. -/
def oneOrManyTruthy : Option OneOrMany → Bool
  | none => false
  | some (.one s) => !s.isEmpty
  | some (.many _) => true

/-- An `output` / `outFile` specification: a path-or-directory string, or a
callback mapping the source file path to one.  A function constructor also
carries `srcText`, the JavaScript source text of the function
(`Function.prototype.toString`), because the reference code applies the
string predicate `isFile` — whose `RegExp.test` coerces its argument to a
string — directly to the function value on the data-source branch. -/
inductive OutSpec where
  | s (v : Str)
  | fn (f : Str → Str) (srcText : Str)

/-- The string a spec coerces to (identity on strings, `toString` on
functions). -/
def OutSpec.coerceStr : OutSpec → Str
  | .s v => v
  | .fn _ srcText => srcText

/-- JavaScript truthiness of a possibly-absent `output`/`outFile` value. -/
def outSpecTruthy : Option OutSpec → Bool
  | none => false
  | some (.s v) => !v.isEmpty
  | some (.fn _ _) => true

/-- The value a `sourceMap` callback may return (`string | boolean`). -/
inductive SMRet where
  | b (v : Bool)
  | s (v : Str)
deriving DecidableEq

/-- A `sourceMap` specification: boolean, path-or-directory string, or a
callback receiving the resolved output file (which is `undefined` — `none` —
when no destination was resolved). -/
inductive SMSpec where
  | b (v : Bool)
  | s (v : Str)
  | fn (f : Option Str → SMRet)

/-- JavaScript truthiness of a possibly-absent `sourceMap` value. -/
def smTruthy : Option SMSpec → Bool
  | none => false
  | some (.b v) => v
  | some (.s v) => !v.isEmpty
  | some (.fn _) => true

/-- The user-facing options object.  `rest` is the opaque compiler
pass-through (the `...nodeSassOptions` of the destructuring), modelled as a
key/value list.  `globOptions` is forwarded verbatim to the matcher and is
absorbed into the `Env` matcher oracles. -/
structure Options where
  data : Option OneOrMany := none
  file : Option OneOrMany := none
  output : Option OutSpec := none
  outFile : Option OutSpec := none
  sourceMap : Option SMSpec := none
  rest : List (Str × Str) := []

/-- A compilation job descriptor (the node-sass config object built by
`getTasks`).  Exactly one of `data`/`file` is set by the builder; `rest`
is the compiler pass-through copied from the options. -/
structure Task where
  data : Option Str := none
  file : Option Str := none
  outFile : Option Str := none
  sourceMap : Option Str := none
  rest : List (Str × Str) := []
deriving DecidableEq

/-- JavaScript truthiness of a possibly-absent string field. -/
def strOptTruthy : Option Str → Bool
  | none => false
  | some s => !s.isEmpty

/-- The result object returned by the external compiler for one task. -/
structure CompileResult where
  css : Str
  map : Option Str := none
deriving DecidableEq

/-- `marshalArray`'s output: one unwrapped result, or the ordered list. -/
inductive Marshal where
  | one (r : CompileResult)
  | many (rs : List CompileResult)
deriving DecidableEq

/-- `marshalArray(arrayData)`: unwrap a single-element array. -/
def marshalArray : List CompileResult → Marshal
  | [r] => .one r
  | rs => .many rs

/-- An invocation of the user-supplied `render` callback: either
`callback(null, results)` or `callback(err)`. -/
inductive CbCall where
  | success (r : Marshal)
  | failure (e : JsErr)
deriving DecidableEq

/-- The deterministic external collaborators of one run: the working
directory, the glob matcher (`glob.hasMagic` plus the match function, the
`globOptions` already applied), the node-sass compiler, and the
filesystem's `ensureDir` and `writeFile` operations. -/
structure Env where
  cwd : Str
  hasMagic : Str → Bool
  globMatch : Str → List Str
  compile : Task → Except JsErr CompileResult
  ensureDir : Str → Except JsErr Unit
  fsWrite : Str → Str → Except JsErr Unit

/-! ## Source functions -/

/-- `joinSourceFiles(files)`: render each file path as a sass import
statement `@import '<resolved path>';` and join with newlines. -/
def joinSourceFiles (cwd : Str) (files : List Str) : Str :=
  joinSegsBy (files.map (fun file =>
    str "@import " ++ apos :: pathResolve cwd file ++ [apos, ';'])) where
  /-- `Array.prototype.join('\n')`. -/
  joinSegsBy : List Str → Str
    | [] => []
    | [s] => s
    | s :: ss => s ++ nl :: joinSegsBy ss

/-- `getSourceFilesSync(sources, globOptions)`: reduce over the arrayified
sources, splicing glob matches in place and pushing literal paths as-is. -/
def getSourceFilesSync (env : Env) (sources : OneOrMany) : List Str :=
  sources.toList.foldl
    (fun sourceFiles p =>
      if env.hasMagic p then sourceFiles ++ env.globMatch p
      else sourceFiles ++ [p]) []

/-- `getSourceFiles(sources, globOptions)`: the asynchronous twin — a
for-loop accumulating exactly the same list (the matcher oracle is
deterministic, §6 of the spec). -/
def getSourceFiles (env : Env) (sources : OneOrMany) : List Str :=
  sources.toList.foldl
    (fun sourceFiles p =>
      if env.hasMagic p then sourceFiles ++ env.globMatch p
      else sourceFiles ++ [p]) []

/-- `getOutFile(source, outFile)`.  On the file-source branch a callback
spec is invoked and a non-file candidate is treated as a directory; on the
data-source branch the spec is used as-is (a callback is *not* invoked:
`isFile` coerces the function to its source text, and reaching
`outFile.replace` with a function value throws a TypeError). -/
def getOutFile (cwd source : Str) (spec : OutSpec) : Except JsErr Str :=
  if isFile source then
    let v1 : Str :=
      match spec with
      | .s v => v
      | .fn f _ => f source
    let v2 : Str := if isFile v1 then v1 else pathJoin v1 (basename source)
    if isFile v2 then .ok (pathResolve cwd (cssNormalize v2))
    else .error (.invalidOutput v2)
  else
    match spec with
    | .s v =>
      if isFile v then .ok (pathResolve cwd (cssNormalize v))
      else .error (.invalidOutput v)
    | .fn _ srcText =>
      if isFile srcText then .error .typeError
      else .error (.invalidOutput srcText)

/-- `getSourceMap(outFile, sourceMap)`.  `outFile` is `none` when the task
carries no resolved destination (`task.outFile` is `undefined`); path
operations on that `undefined` value throw a TypeError. -/
def getSourceMap (cwd : Str) (outFile : Option Str) (sm : SMSpec) :
    Except JsErr Str :=
  let cand : SMRet :=
    match sm with
    | .b v => .b v
    | .s v => .s v
    | .fn f => f outFile
  -- `sourceMap === true` substitutes the output file.
  let cand : Option SMRet :=
    match cand with
    | .b true => outFile.map .s
    | c => some c
  match cand with
  | some (.s v) =>
    if isFile v then .ok (pathResolve cwd (mapNormalize v))
    else
      match outFile with
      | some o => .ok (pathResolve cwd (mapNormalize (pathJoin v (basename o))))
      | none => .error .typeError
  | some (.b _) => .error .typeError
  | none => .error .typeError

/-- `getTasks(source, options)` for a single source string (the array case
maps this over the entries; `getTasks1` is the recursion's base case).
The spread `{...nodeSassOptions, ...task}` is modelled by copying the
pass-through `rest` onto the task. -/
def getTasks1 (cwd : Str) (source : Str) (o : Options) : Except JsErr Task := do
  let outSpec : Option OutSpec :=
    if outSpecTruthy o.output then o.output else o.outFile
  let base : Task :=
    if isFile source then { file := some source, rest := o.rest }
    else { data := some source, rest := o.rest }
  let t1 : Task ←
    match outSpec with
    | some spec =>
      if outSpecTruthy (some spec) then do
        let p ← getOutFile cwd source spec
        pure { base with outFile := some p }
      else pure base
    | none => pure base
  match o.sourceMap with
  | some sm =>
    if smTruthy (some sm) then do
      let q ← getSourceMap cwd t1.outFile sm
      pure { t1 with sourceMap := some q }
    else pure t1
  | none => pure t1

/-- Decidable equality for `Except` values (used to evaluate the model at
concrete inputs). -/
instance [DecidableEq e] [DecidableEq a] : DecidableEq (Except e a)
  | .ok x, .ok y =>
    if h : x = y then .isTrue (by rw [h]) else .isFalse (by simp [h])
  | .ok _, .error _ => .isFalse (by simp)
  | .error _, .ok _ => .isFalse (by simp)
  | .error x, .error y =>
    if h : x = y then .isTrue (by rw [h]) else .isFalse (by simp [h])

/-! ## Task reducer -/

/-- `Array.prototype.indexOf` on the outFile lookup list (`===` equality;
`undefined` — `none` — is found like any other value). -/
def idxOf (k : Option Str) : List (Option Str) → Option Nat
  | [] => none
  | k' :: ks => if k' = k then some 0 else (idxOf k ks).map (· + 1)

/-- In-place update of a list element (the `reducedTasks[index]` mutation). -/
def updateAt (n : Nat) (f : α → α) : List α → List α
  | [] => []
  | a :: as =>
    match n with
    | 0 => f a :: as
    | n + 1 => a :: updateAt n f as

/-- The source carried by a task under the chosen source type
(`task[sourceType]`).  The tasks the reducer receives always carry their
source field (they come out of `getTasks`), so the `undefined` fallback
is an arbitrary default. -/
def srcOf (st : Bool) (t : Task) : Str :=
  (if st then t.data else t.file).getD []

/-- One `forEach` step of `reduceTasksByOutFile`'s grouping phase: look the
task's `outFile` up; on a miss push the outFile and the task (its source
arrayified), on a hit push the source into the existing group. -/
def reduceStep (st : Bool) (acc : List (Option Str) × List (Task × List Str))
    (t : Task) : List (Option Str) × List (Task × List Str) :=
  match idxOf t.outFile acc.1 with
  | none => (acc.1 ++ [t.outFile], acc.2 ++ [(t, [srcOf st t])])
  | some i => (acc.1, updateAt i (fun p => (p.1, p.2 ++ [srcOf st t])) acc.2)

/-- `Array.prototype.join('\n')` on the collected data sources. -/
def joinNL : List Str → Str
  | [] => []
  | [s] => s
  | s :: ss => s ++ nl :: joinNL ss

/-- The final `map` of `reduceTasksByOutFile`: a single-source group keeps
its singular source field; a multi-source group drops `file` and joins the
sources into `data` (directly for data sources, as import statements for
file sources). -/
def finalizeGroup (cwd : Str) (st : Bool) (p : Task × List Str) : Task :=
  match p with
  | (t, [s0]) =>
    if st then { t with data := some s0 } else { t with file := some s0 }
  | (t, srcs) =>
    { t with file := none,
             data := some (if st then joinNL srcs else joinSourceFiles cwd srcs) }

/-- `reduceTasksByOutFile(tasks)`.  The source type is read off the first
task (`tasks[0].data ? 'data' : 'file'`); in the reference code an empty
task list would throw a TypeError here, but the caller only invokes the
reducer behind a `tasks[0].outFile` check, so the list is never empty. -/
def reduceTasksByOutFile (cwd : Str) (tasks : List Task) : List Task :=
  match tasks with
  | [] => []
  | t0 :: _ =>
    let st := strOptTruthy t0.data
    (tasks.foldl (reduceStep st) ([], [])).2.map (finalizeGroup cwd st)

/-! ## Validation, persistence, orchestration -/

/-- `validateOptions(options)`: requires a `data` or `file` source and
forbids `sourceMap` without `output`/`outFile`.  (The `typeof options !==
'object'` guard is outside the model: an `Options` value is an object.) -/
def validateOptions (o : Options) : Except JsErr Options :=
  if !oneOrManyTruthy o.file && !oneOrManyTruthy o.data then .error .noInput
  else if smTruthy o.sourceMap && (!outSpecTruthy o.output && !outSpecTruthy o.outFile) then
    .error .noOutputForSourceMap
  else .ok o

/-- The asynchronous `writeFile(content, filePath)`.  Its result is the list
of `(path, content)` pairs actually persisted.  The `catch` block executes
`Promise.reject(err)` **without returning it**, so a rejection of
`fs.ensureDir` is swallowed and the function fulfills having written
nothing; a rejection of the returned `fs.writeFile` promise is not caught
(it is returned, not awaited) and propagates. -/
def writeFile (env : Env) (content filePath : Str) :
    Except JsErr (List (Str × Str)) :=
  match env.ensureDir (dirname filePath) with
  | .error _ => .ok []
  | .ok _ =>
    match env.fsWrite filePath content with
    | .error e => .error e
    | .ok _ => .ok [(filePath, content)]

/-- The synchronous `writeFileSync(content, filePath)`: both the directory
creation and the write throw on failure. -/
def writeFileSync (env : Env) (content filePath : Str) :
    Except JsErr (List (Str × Str)) :=
  match env.ensureDir (dirname filePath) with
  | .error e => .error e
  | .ok _ =>
    match env.fsWrite filePath content with
    | .error e => .error e
    | .ok _ => .ok [(filePath, content)]

/-- Reading a task field that must be a string (`task.outFile` /
`task.sourceMap` fed to the path functions): `undefined` throws a
TypeError. -/
def requireStr : Option Str → Except JsErr Str
  | some s => .ok s
  | none => .error .typeError

/-- The per-task write step shared by both modes: write the css to
`task.outFile` and, when the compiler produced a map, write it to
`task.sourceMap`.  Parametrized by the write primitive (async or sync). -/
def writeTask (w : Str → Str → Except JsErr (List (Str × Str)))
    (t : Task) (r : CompileResult) : Except JsErr (List (Str × Str)) := do
  let out ← requireStr t.outFile
  let l1 ← w r.css out
  match r.map with
  | some m => do
    let sm ← requireStr t.sourceMap
    let l2 ← w m sm
    pure (l1 ++ l2)
  | none => pure l1

/-- Write out every compiled result (async mode: `Promise.all` over the
tasks; the write oracles are deterministic, so the persisted set is the
task-order concatenation). -/
def writeAll (w : Str → Str → Except JsErr (List (Str × Str))) :
    List (Task × CompileResult) → Except JsErr (List (Str × Str))
  | [] => .ok []
  | (t, r) :: rest => do
    let l ← writeTask w t r
    let ls ← writeAll w rest
    pure (l ++ ls)

/-- The source-resolution step of `render`:
`data || (await getSourceFiles(file, globOptions))`.  When `data` is falsy,
`validateOptions` has guaranteed `file` is truthy (the `getD` default is
unreachable). -/
def resolveSourcesAsync (env : Env) (o : Options) : OneOrMany :=
  match o.data with
  | some d => if oneOrManyTruthy (some d) then d
              else .many (getSourceFiles env (o.file.getD (.many [])))
  | none => .many (getSourceFiles env (o.file.getD (.many [])))

/-- The source-resolution step of `renderSync`. -/
def resolveSourcesSync (env : Env) (o : Options) : OneOrMany :=
  match o.data with
  | some d => if oneOrManyTruthy (some d) then d
              else .many (getSourceFilesSync env (o.file.getD (.many [])))
  | none => .many (getSourceFilesSync env (o.file.getD (.many [])))

/-- `arrayify(getTasks(sources, options))` followed by the
`if (tasks[0].outFile) tasks = reduceTasksByOutFile(tasks)` step.  Reading
`tasks[0]` of an empty task list throws a TypeError. -/
def buildTaskList (env : Env) (sources : OneOrMany) (o : Options) :
    Except JsErr (List Task) := do
  let tasks ← sources.toList.mapM (fun s => getTasks1 env.cwd s o)
  match tasks with
  | [] => .error .typeError
  | t0 :: _ =>
    pure (if strOptTruthy t0.outFile then reduceTasksByOutFile env.cwd tasks else tasks)

/-- The body of `render` (everything inside the `try`): validate, resolve
sources, build and reduce tasks, compile them all, persist when `output`
was given.  Returns the marshalled results and the persisted files. -/
def renderPipeline (env : Env) (o : Options) :
    Except JsErr (Marshal × List (Str × Str)) := do
  let o ← validateOptions o
  let sources := resolveSourcesAsync env o
  let tasks ← buildTaskList env sources o
  let compiled ← tasks.mapM env.compile
  let log ←
    if outSpecTruthy o.output then writeAll (writeFile env) (tasks.zip compiled)
    else pure []
  pure (marshalArray compiled, log)

/-- `renderSync(options)`: the same pipeline, with the synchronous source
resolver and the synchronous (strictly sequential) write loop. -/
def renderSync (env : Env) (o : Options) :
    Except JsErr (Marshal × List (Str × Str)) := do
  let o ← validateOptions o
  let sources := resolveSourcesSync env o
  let tasks ← buildTaskList env sources o
  let compiled ← tasks.mapM env.compile
  let log ←
    if outSpecTruthy o.output then writeAll (writeFileSync env) (tasks.zip compiled)
    else pure []
  pure (marshalArray compiled, log)

/-- `render(options, callback)`: the `try`/`catch` wrapper around the
pipeline.  With a callback, a pipeline error is handed to `callback(err)`
and the promise fulfills with `undefined` (`none`); without one it rejects.
On success the callback receives `(null, results)` and the promise fulfills
with the results either way.  The callback is modelled as a non-throwing
observer; its invocations are returned alongside the promise outcome. -/
def render (env : Env) (o : Options) (withCb : Bool) :
    Except JsErr (Option Marshal) × List CbCall :=
  match renderPipeline env o with
  | .ok (res, _) => (.ok (some res), if withCb then [.success res] else [])
  | .error e => if withCb then (.ok none, [.failure e]) else (.error e, [])

/-! ## Specification-side characterizations (for the reducer claim) -/

/-- Grouping of tasks by exact equality of `outFile`, in first-seen order
(the spec's §4.5 contract): the first task establishes its group's position,
and a group collects every later task with the same `outFile`. -/
def groupsByOutFile : List Task → List (List Task)
  | [] => []
  | t :: ts =>
    (t :: ts.filter (fun u => decide (u.outFile = t.outFile))) ::
      groupsByOutFile (ts.filter (fun u => !decide (u.outFile = t.outFile)))
termination_by l => l.length
decreasing_by
  simp only [List.length_cons]
  exact Nat.lt_succ_of_le (List.length_filter_le _ _)

/-- The spec's merged job for one group of file-content tasks: a singleton
group passes through unchanged; a larger group keeps the first member's
fields, drops `file`, and joins the members' resolved sources as import
directives. -/
def mergeFileGroup (cwd : Str) (g : List Task) : Task :=
  match g with
  | [] => {}
  | [t] => t
  | t :: _ => { t with file := none,
                       data := some (joinSourceFiles cwd (g.filterMap Task.file)) }

/-! ## Concrete environments and options used by witnesses -/

/-- A benign environment: `*` marks a glob, globs match nothing, the
compiler answers `c`, the filesystem always succeeds. -/
def envA : Env where
  cwd := str "/w"
  hasMagic := fun p => p.contains '*'
  globMatch := fun _ => []
  compile := fun _ => .ok { css := str "c" }
  ensureDir := fun _ => .ok ()
  fsWrite := fun _ _ => .ok ()

/-- `envA` with a glob expanding to two concrete files. -/
def envB : Env :=
  { envA with globMatch := fun _ => [str "a.scss", str "b.scss"] }

/-- `envA` with a failing `ensureDir` (e.g. a path component exists as a
regular file, so creating the destination directory fails). -/
def envFailDir : Env :=
  { envA with ensureDir := fun _ => .error (.ext (str "ENOTDIR")) }

/-! ## Helper lemmas -/

/-- The task builder sets the `file` field exactly when the permissive
predicate accepts the source, and the `data` field otherwise. -/
theorem getTasks1_fields (cwd src : Str) (o : Options) (t : Task)
    (h : getTasks1 cwd src o = .ok t) :
    t.file = (if isFile src then some src else none) ∧
    t.data = (if isFile src then none else some src) := by
  cases hf : isFile src <;>
  · unfold getTasks1 at h
    simp only [bind, Except.bind, pure, Except.pure, hf, Bool.false_eq_true,
      if_true, if_false] at h
    repeat' split at h
    all_goals (cases h <;> simp)

/-! ## C1 — source classification -/

/-- C1, counterexample: the reference snapshot has no stylesheet-aware
classification predicate.  The source `foo.txt` does not end in a
stylesheet-family extension, yet the task builder classifies it as a file
source (it carries a `file` field, not a `data` field), because the
classification uses the permissive dot-suffix predicate. -/
theorem c1_source_classification_counterexample :
    getTasks1 (str "/w") (str "foo.txt") {} =
      .ok { file := some (str "foo.txt") } ∧
    stylesheetSuffix (str "foo.txt") = false := by decide

/-- C1, amended: the task builder classifies a source as a file source iff
the single permissive predicate `isFile` (any trailing dot + non-whitespace
suffix — the same predicate used for destination disambiguation) accepts
it; the stylesheet-family extension set appears only in the
extension-normalization rewrite, not in classification. -/
theorem c1_source_classification (cwd src : Str) (o : Options) (t : Task)
    (h : getTasks1 cwd src o = .ok t) :
    (isFile src = true → t.file = some src ∧ t.data = none) ∧
    (isFile src = false → t.data = some src ∧ t.file = none) := by
  obtain ⟨h1, h2⟩ := getTasks1_fields cwd src o t h
  constructor <;> intro hf <;> rw [hf] at h1 h2 <;> simp at h1 h2 <;>
    first
    | exact ⟨h1, h2⟩
    | exact ⟨h2, h1⟩

/-- C1, witness: the amended classification evaluated on `a.scss`. -/
theorem c1_source_classification_witness :
    ({ file := some (str "a.scss") } : Task).file = some (str "a.scss") ∧
    ({ file := some (str "a.scss") } : Task).data = none :=
  (c1_source_classification (str "/w") (str "a.scss") {}
    { file := some (str "a.scss") } (by decide)).1 (by decide)

/-! ## C5 — storage-error propagation (code bug) -/

/-- C5: the asynchronous `writeFile` swallows a directory-creation failure
(the `catch` block builds `Promise.reject(err)` but never returns it), so
`render` reports success and persists nothing, while `renderSync`
propagates the same failure — contradicting the propagation contract and
`writeFile`'s own `@throws` documentation. -/
theorem c5_dir_error_swallowed :
    writeFile envFailDir (str "c") (str "/d/x.css") = .ok [] ∧
    writeFileSync envFailDir (str "c") (str "/d/x.css") =
      .error (.ext (str "ENOTDIR")) ∧
    renderPipeline envFailDir
        { file := some (.one (str "a.scss")), output := some (.s (str "out")) } =
      .ok (.one { css := str "c" }, []) ∧
    renderSync envFailDir
        { file := some (.one (str "a.scss")), output := some (.s (str "out")) } =
      .error (.ext (str "ENOTDIR")) := by decide

/-! ## C7 — data sources require a file-path destination -/

/-- C7, counterexample: for a literal data source with a callback
destination whose result (`dest`) is not a file path, the builder does not
raise the invalid-destination error: the callback is never invoked for data
sources — `isFile` is applied to the function's source text (here
`x => 'dest'.trim()`, which passes the dot-suffix test), and the code then
throws a TypeError trying `outFile.replace` on a function value. -/
theorem c7_data_destination_counterexample :
    getOutFile (str "/w") (str "a: b")
        (.fn (fun _ => str "dest")
          (str "x => " ++ apos :: str "dest" ++ apos :: str ".trim()")) =
      .error .typeError ∧
    isFile (str "dest") = false ∧
    JsErr.typeError ≠ JsErr.invalidOutput (str "dest") := by decide

/-- C7, amended: for a literal data source, a string destination that fails
the dot-suffix file predicate (e.g. a plain directory path) raises the
invalid-destination error — also through the task builder — while a
callback destination is never invoked for data sources: it fails with a
TypeError when its source text passes the predicate, and with the
invalid-destination error (carrying the source text) otherwise. -/
theorem c7_data_destination :
    (∀ cwd src v, isFile src = false → isFile v = false →
      getOutFile cwd src (.s v) = .error (.invalidOutput v)) ∧
    (∀ cwd src o v, isFile src = false → isFile v = false → v ≠ [] →
      o.output = some (.s v) →
      getTasks1 cwd src o = .error (.invalidOutput v)) ∧
    (∀ cwd src f srcText, isFile src = false →
      getOutFile cwd src (.fn f srcText) =
        .error (if isFile srcText then .typeError else .invalidOutput srcText)) := by
  refine ⟨?_, ?_, ?_⟩
  · intro cwd src v hs hv
    unfold getOutFile
    simp [hs, hv]
  · intro cwd src o v hs hv hne hout
    have hgof : getOutFile cwd src (.s v) = .error (.invalidOutput v) := by
      unfold getOutFile; simp [hs, hv]
    unfold getTasks1
    have htr : outSpecTruthy (some (.s v)) = true := by
      simp [outSpecTruthy, List.isEmpty_iff, hne]
    simp [hout, htr, bind, Except.bind, hgof]
  · intro cwd src f srcText hs
    unfold getOutFile
    cases ht : isFile srcText <;> simp [hs, ht]

/-- C7, witness: the amended behavior evaluated at the spec's own test case
(`data` source with `outFile: 'dest'`) and at a callback spec. -/
theorem c7_data_destination_witness :
    getOutFile (str "/w") (str "a: b") (.s (str "dest")) =
      .error (.invalidOutput (str "dest")) ∧
    getTasks1 (str "/w") (str "a: b")
        { data := some (.one (str "a: b")), output := some (.s (str "dest")) } =
      .error (.invalidOutput (str "dest")) ∧
    getOutFile (str "/w") (str "a: b") (.fn (fun _ => str "x.css") (str "f")) =
      .error (if isFile (str "f") then .typeError else .invalidOutput (str "f")) :=
  ⟨c7_data_destination.1 (str "/w") (str "a: b") (str "dest")
      (by decide) (by decide),
   c7_data_destination.2.1 (str "/w") (str "a: b")
      { data := some (.one (str "a: b")), output := some (.s (str "dest")) }
      (str "dest") (by decide) (by decide) (by decide) rfl,
   c7_data_destination.2.2 (str "/w") (str "a: b")
      (fun _ => str "x.css") (str "f") (by decide)⟩

/-! ## C8 — sourceMap requires a destination -/

/-- C8, counterexample: a request supplying a source-map specification but
neither output nor outFile — and also no source — is rejected with the
no-input error, not the missing-destination error: the input check of
`validateOptions` runs first. -/
theorem c8_missing_destination_counterexample :
    render envA { sourceMap := some (.b true) } false = (.error .noInput, []) ∧
    render envA { sourceMap := some (.b true) } true =
      (.ok none, [.failure .noInput]) ∧
    JsErr.noInput ≠ JsErr.noOutputForSourceMap := by decide

/-- C8, amended: for every request that supplies a data or file source and
a truthy source-map specification but neither output nor outFile, `render`
rejects (and `renderSync` throws) with the missing-destination error — and
does so for every environment, i.e. before the compiler oracle is ever
consulted. -/
theorem c8_missing_destination (env : Env) (o : Options)
    (hsrc : (oneOrManyTruthy o.data || oneOrManyTruthy o.file) = true)
    (hsm : smTruthy o.sourceMap = true)
    (hout : outSpecTruthy o.output = false)
    (houtf : outSpecTruthy o.outFile = false) :
    validateOptions o = .error .noOutputForSourceMap ∧
    renderPipeline env o = .error .noOutputForSourceMap ∧
    renderSync env o = .error .noOutputForSourceMap ∧
    render env o false = (.error .noOutputForSourceMap, []) ∧
    render env o true = (.ok none, [.failure .noOutputForSourceMap]) := by
  have hval : validateOptions o = .error .noOutputForSourceMap := by
    cases hd : oneOrManyTruthy o.data <;> cases hf : oneOrManyTruthy o.file <;>
      simp_all [validateOptions]
  have hpipe : renderPipeline env o = .error .noOutputForSourceMap := by
    simp [renderPipeline, hval, bind, Except.bind]
  have hsync : renderSync env o = .error .noOutputForSourceMap := by
    simp [renderSync, hval, bind, Except.bind]
  refine ⟨hval, hpipe, hsync, ?_, ?_⟩ <;> simp [render, hpipe]

/-- C8, witness: the amended claim at the spec's test case
`renderAsync({data: '…', sourceMap: true})`. -/
theorem c8_missing_destination_witness :
    renderPipeline envA
        { data := some (.one (str "a: b")), sourceMap := some (.b true) } =
      .error .noOutputForSourceMap ∧
    renderSync envA
        { data := some (.one (str "a: b")), sourceMap := some (.b true) } =
      .error .noOutputForSourceMap :=
  ⟨(c8_missing_destination envA
      { data := some (.one (str "a: b")), sourceMap := some (.b true) }
      (by decide) (by decide) (by decide) (by decide)).2.1,
   (c8_missing_destination envA
      { data := some (.one (str "a: b")), sourceMap := some (.b true) }
      (by decide) (by decide) (by decide) (by decide)).2.2.1⟩

/-! ## C9 — empty source resolution -/

/-- `getSourceFilesSync` and `getSourceFiles` are the same accumulation. -/
theorem getSourceFilesSync_eq (env : Env) (s : OneOrMany) :
    getSourceFilesSync env s = getSourceFiles env s := rfl

/-- C9: when `data` is falsy and the file sources resolve to the empty
list (e.g. a glob matching nothing), both entry points fail with a
TypeError — reading `tasks[0].outFile` of an undefined first task — rather
than returning an empty result list or a classified error. -/
theorem c9_empty_sources (env : Env) (o : Options)
    (hd : oneOrManyTruthy o.data = false)
    (hv : validateOptions o = .ok o)
    (hsf : getSourceFiles env (o.file.getD (.many [])) = []) :
    renderPipeline env o = .error .typeError ∧
    renderSync env o = .error .typeError ∧
    render env o false = (.error .typeError, []) := by
  have hres : resolveSourcesAsync env o = .many [] := by
    unfold resolveSourcesAsync
    cases hdo : o.data with
    | none => simp [hsf]
    | some d =>
      rw [hdo] at hd
      simp [hd, hsf]
  have hress : resolveSourcesSync env o = .many [] := by
    unfold resolveSourcesSync
    rw [getSourceFilesSync_eq]
    cases hdo : o.data with
    | none => simp [hsf]
    | some d =>
      rw [hdo] at hd
      simp [hd, getSourceFilesSync_eq, hsf]
  have hbuild : buildTaskList env (.many []) o = .error .typeError := rfl
  have hpipe : renderPipeline env o = .error .typeError := by
    simp [renderPipeline, hv, bind, Except.bind, hres, hbuild]
  refine ⟨hpipe, ?_, by simp [render, hpipe]⟩
  simp [renderSync, hv, bind, Except.bind, hress, hbuild]

/-- C9, witness: a file request whose glob matches nothing. -/
theorem c9_empty_sources_witness :
    renderPipeline envA { file := some (.one (str "*.scss")) } =
      .error .typeError ∧
    renderSync envA { file := some (.one (str "*.scss")) } =
      .error .typeError :=
  ⟨(c9_empty_sources envA { file := some (.one (str "*.scss")) }
      (by decide) rfl (by decide)).1,
   (c9_empty_sources envA { file := some (.one (str "*.scss")) }
      (by decide) rfl (by decide)).2.1⟩

/-! ## C10 — callback protocol of `render` -/

/-- C10: with a callback, the promise returned by `render` never rejects:
a pipeline error is delivered as the callback's first argument and the
promise fulfills with `undefined`; without a callback the same error
rejects the promise; on success the callback receives `(null, results)`
and the promise fulfills with those results either way.  (The callback is
modelled as a non-throwing observer.) -/
theorem c10_callback_protocol (env : Env) (o : Options) :
    (render env o true).1.isOk = true ∧
    (∀ e, renderPipeline env o = .error e →
      render env o true = (.ok none, [.failure e]) ∧
      render env o false = (.error e, [])) ∧
    (∀ res log, renderPipeline env o = .ok (res, log) →
      render env o true = (.ok (some res), [.success res]) ∧
      render env o false = (.ok (some res), [])) := by
  refine ⟨?_, ?_, ?_⟩
  · cases h : renderPipeline env o with
    | ok v => simp [render, h, Except.isOk, Except.toBool]
    | error e => simp [render, h, Except.isOk, Except.toBool]
  · intro e h
    simp [render, h]
  · intro res log h
    simp [render, h]

/-- C10, witness: the protocol evaluated on a failing and on a succeeding
request. -/
theorem c10_callback_protocol_witness :
    render envA { sourceMap := some (.b true) } true =
      (.ok none, [.failure .noInput]) ∧
    render envA { data := some (.one (str "a")) } true =
      (.ok (some (.one { css := str "c" })), [.success (.one { css := str "c" })]) :=
  ⟨((c10_callback_protocol envA { sourceMap := some (.b true) }).2.1
      .noInput (by decide)).1,
   ((c10_callback_protocol envA { data := some (.one (str "a")) }).2.2
      (.one { css := str "c" }) [] (by decide)).1⟩

/-! ## C4 — order-preserving source resolution -/

/-- Accumulation form of the source resolvers. -/
theorem getSourceFiles_foldl (c : Str → Bool) (g : Str → List Str)
    (l : List Str) (acc : List Str) :
    l.foldl (fun a p => if c p then a ++ g p else a ++ [p]) acc =
      acc ++ l.flatMap (fun p => if c p then g p else [p]) := by
  induction l generalizing acc with
  | nil => simp
  | cons p l ih =>
    simp only [List.foldl_cons, List.flatMap_cons]
    cases hc : c p <;> simp [ih, List.append_assoc]

/-- A list with no glob entries flat-maps to itself. -/
theorem flatMap_literal_id (c : Str → Bool) (g : Str → List Str) :
    ∀ l : List Str, (∀ p ∈ l, c p = false) →
      l.flatMap (fun p => if c p then g p else [p]) = l := by
  intro l hall
  induction l with
  | nil => simp
  | cons p l ih =>
    rw [List.flatMap_cons, hall p (List.mem_cons_self p l)]
    simp only [Bool.false_eq_true, if_false, List.singleton_append]
    exact congrArg (p :: ·) (ih (fun q hq => hall q (List.mem_cons_of_mem p hq)))

/-- C4: source resolution preserves input order exactly — each entry
without glob metacharacters is inserted as-is at its position (no
existence check is possible: the resolvers never consult the filesystem
beyond the matcher), each glob entry is replaced in place by the matcher's
ordered result, and a list with no glob entries resolves to itself —
identically in the async and sync resolvers. -/
theorem c4_source_resolution (env : Env) (sources : OneOrMany) :
    getSourceFiles env sources =
      sources.toList.flatMap
        (fun p => if env.hasMagic p then env.globMatch p else [p]) ∧
    getSourceFilesSync env sources =
      sources.toList.flatMap
        (fun p => if env.hasMagic p then env.globMatch p else [p]) ∧
    ((∀ p ∈ sources.toList, env.hasMagic p = false) →
      getSourceFiles env sources = sources.toList ∧
      getSourceFilesSync env sources = sources.toList) := by
  have h : getSourceFiles env sources =
      sources.toList.flatMap
        (fun p => if env.hasMagic p then env.globMatch p else [p]) := by
    unfold getSourceFiles
    rw [getSourceFiles_foldl]
    simp
  have hid : (∀ p ∈ sources.toList, env.hasMagic p = false) →
      getSourceFiles env sources = sources.toList := by
    intro hall
    rw [h]
    exact flatMap_literal_id env.hasMagic env.globMatch sources.toList hall
  exact ⟨h, h, fun hall => ⟨hid hall, hid hall⟩⟩

/-- C4, witness: three literal sources pass through unchanged. -/
theorem c4_source_resolution_witness :
    getSourceFiles envA (.many [str "a.scss", str "b.scss", str "c.scss"]) =
      [str "a.scss", str "b.scss", str "c.scss"] ∧
    getSourceFilesSync envA (.many [str "a.scss", str "b.scss", str "c.scss"]) =
      [str "a.scss", str "b.scss", str "c.scss"] :=
  (c4_source_resolution envA
    (.many [str "a.scss", str "b.scss", str "c.scss"])).2.2 (by decide)

/-! ## Path-suffix machinery (for the destination invariant) -/

theorem splitSlash_no_slash (s : Str) (h : '/' ∉ s) : splitSlash s = [s] := by
  induction s with
  | nil => rfl
  | cons c cs ih =>
    have hc : c ≠ '/' := fun hc => h (by simp [hc])
    have : splitSlash cs = [cs] := ih (fun hm => h (List.mem_cons_of_mem c hm))
    unfold splitSlash
    rw [this]
    simp [hc, fun hq => hc hq]

theorem splitSlash_suffix_last (pre sfx : Str) (h : '/' ∉ sfx) :
    ∃ init last, splitSlash (pre ++ sfx) = init ++ [last] ∧ sfx <:+ last := by
  induction pre with
  | nil =>
    refine ⟨[], sfx, ?_, List.suffix_refl sfx⟩
    simp [splitSlash_no_slash sfx h]
  | cons c pre ih =>
    obtain ⟨init, last, hinit, hsfx⟩ := ih
    simp only [List.cons_append]
    unfold splitSlash
    rw [hinit]
    cases init with
    | nil =>
      by_cases hc : c = '/'
      · exact ⟨[[]], last, by simp [hc], hsfx⟩
      · exact ⟨[], c :: last, by simp [hc],
          hsfx.trans (List.suffix_cons c last)⟩
    | cons i0 init' =>
      by_cases hc : c = '/'
      · exact ⟨[] :: i0 :: init', last, by simp [hc], hsfx⟩
      · exact ⟨(c :: i0) :: init', last, by simp [hc], hsfx⟩

theorem normSegs_last (flag : Bool) (l : Str)
    (h0 : l ≠ []) (h1 : l ≠ str ".") (h2 : l ≠ str "..") :
    ∀ (segs : List Str) (stack : List Str),
      ∃ st, normSegs flag stack (segs ++ [l]) = st ++ [l] := by
  intro segs
  induction segs with
  | nil =>
    intro stack
    refine ⟨stack.reverse, ?_⟩
    simp only [List.nil_append]
    simp [normSegs, h0, h1, h2]
  | cons sg segs ih =>
    intro stack
    simp only [List.cons_append]
    unfold normSegs
    repeat' split
    all_goals exact ih _

theorem joinSegs_last (st : List Str) (l : Str) :
    l <:+ joinSegs (st ++ [l]) := by
  induction st with
  | nil => simp [joinSegs]
  | cons s st ih =>
    rw [List.cons_append]
    cases hst : st ++ [l] with
    | nil => simp at hst
    | cons x xs =>
      rw [hst] at ih
      show l <:+ s ++ '/' :: joinSegs (x :: xs)
      exact ih.trans ((List.suffix_cons '/' _).trans (List.suffix_append s _))

theorem suffix_last_conds (sfx last : Str)
    (h0 : sfx ≠ []) (h1 : sfx ≠ str ".") (h2 : sfx ≠ str "..")
    (hl : sfx <:+ last) :
    last ≠ [] ∧ last ≠ str "." ∧ last ≠ str ".." := by
  obtain ⟨t, ht⟩ := hl
  refine ⟨?_, ?_, ?_⟩ <;> rintro rfl
  · exact h0 (List.append_eq_nil.mp ht).2
  · cases t with
    | nil => exact h1 ht
    | cons c t' =>
      injection ht with hc ht'
      exact h0 (List.append_eq_nil.mp ht').2
  · cases t with
    | nil => exact h2 ht
    | cons c t' =>
      injection ht with hc ht'
      cases t' with
      | nil => exact h1 ht'
      | cons c' t'' =>
        injection ht' with hc' ht''
        exact h0 (List.append_eq_nil.mp ht'').2

theorem norm_split_suffix (flag : Bool) (full sfx : Str)
    (h0 : sfx ≠ []) (h1 : sfx ≠ str ".") (h2 : sfx ≠ str "..")
    (hsl : '/' ∉ sfx) (hsfx : sfx <:+ full) :
    sfx <:+ joinSegs (normSegs flag [] (splitSlash full)) := by
  obtain ⟨pre, hpre⟩ := hsfx
  obtain ⟨init, last, hsplit, hlast⟩ := splitSlash_suffix_last pre sfx hsl
  obtain ⟨l0, l1, l2⟩ := suffix_last_conds sfx last h0 h1 h2 hlast
  obtain ⟨st, hns⟩ := normSegs_last flag last l0 l1 l2 init []
  rw [← hpre, hsplit, hns]
  exact hlast.trans (joinSegs_last st last)

theorem pathResolve_isAbsolute (cwd p : Str) :
    isAbsolute (pathResolve cwd p) = true := rfl

theorem pathResolve_suffix (cwd p sfx : Str)
    (h0 : sfx ≠ []) (h1 : sfx ≠ str ".") (h2 : sfx ≠ str "..")
    (hsl : '/' ∉ sfx) (hsfx : sfx <:+ p) :
    sfx <:+ pathResolve cwd p := by
  have hfull : sfx <:+ (if isAbsolute p then p else cwd ++ '/' :: p) := by
    split
    · exact hsfx
    · exact hsfx.trans ((List.suffix_cons '/' p).trans
        (List.suffix_append cwd ('/' :: p)))
  unfold pathResolve
  exact (norm_split_suffix true _ sfx h0 h1 h2 hsl hfull).trans
    (List.suffix_cons '/' _)

theorem pathJoin_suffix (a bn : Str)
    (h0 : bn ≠ []) (h1 : bn ≠ str ".") (h2 : bn ≠ str "..")
    (hsl : '/' ∉ bn) :
    bn <:+ pathJoin a bn := by
  have hfull : bn <:+ a ++ '/' :: bn :=
    (List.suffix_cons '/' bn).trans (List.suffix_append a ('/' :: bn))
  have hr := norm_split_suffix false (a ++ '/' :: bn) bn h0 h1 h2 hsl hfull
  unfold pathJoin
  dsimp only
  split
  · next hre =>
    rw [hre] at hr
    exact absurd (List.suffix_nil.mp hr) h0
  · split
    · exact hr.trans (List.suffix_cons '/' _)
    · exact hr

theorem mapNormalize_suffix (p : Str) : (str ".map") <:+ mapNormalize p := by
  unfold mapNormalize
  split
  · assumption
  · exact List.suffix_append p (str ".map")

theorem cssNormalize_suffix (p : Str) (h : stylesheetSuffix p = true) :
    (str ".css") <:+ cssNormalize p := by
  unfold cssNormalize
  split
  · exact List.suffix_append _ (str ".css")
  · next hn =>
    simp only [stylesheetSuffix, Bool.or_eq_true, decide_eq_true_eq] at h
    rcases h with (h | h) | h
    · exact absurd (Or.inl h) hn
    · exact absurd (Or.inr h) hn
    · exact h

theorem isFile_of_dot_suffix (v t : Str) (hne : t ≠ [])
    (hws : t.all (fun x => !x.isWhitespace) = true)
    (h : ('.' :: t) <:+ v) : isFile v = true := by
  obtain ⟨pre, hpre⟩ := h
  induction pre generalizing v with
  | nil =>
    simp only [List.nil_append] at hpre
    subst hpre
    unfold isFile
    simp [hne, hws, List.isEmpty_iff]
  | cons c pre ih =>
    cases v with
    | nil => simp at hpre
    | cons c' v' =>
      injection hpre with hc hrest
      unfold isFile
      rw [ih v' hrest]
      simp

theorem stylesheet_isFile (v : Str) (h : stylesheetSuffix v = true) :
    isFile v = true := by
  simp only [stylesheetSuffix, Bool.or_eq_true, decide_eq_true_eq] at h
  rcases h with (h | h) | h
  · exact isFile_of_dot_suffix v (str "sass") (by decide) (by decide) h
  · exact isFile_of_dot_suffix v (str "scss") (by decide) (by decide) h
  · exact isFile_of_dot_suffix v (str "css") (by decide) (by decide) h

theorem getOutFile_abs (cwd src : Str) (spec : OutSpec) (p : Str)
    (h : getOutFile cwd src spec = .ok p) : isAbsolute p = true := by
  unfold getOutFile at h
  dsimp only at h
  repeat' split at h
  all_goals (cases h <;> exact pathResolve_isAbsolute _ _)

theorem getSourceMap_ok (cwd : Str) (outFile : Option Str) (sm : SMSpec)
    (q : Str) (h : getSourceMap cwd outFile sm = .ok q) :
    isAbsolute q = true ∧ (str ".map") <:+ q := by
  unfold getSourceMap at h
  dsimp only at h
  repeat' split at h
  all_goals cases h
  all_goals exact ⟨pathResolve_isAbsolute _ _,
    pathResolve_suffix _ _ _ (by decide) (by decide) (by decide) (by decide)
      (mapNormalize_suffix _)⟩

theorem getOutFile_s_stylesheet (cwd src v p : Str)
    (hv : stylesheetSuffix v = true)
    (h : getOutFile cwd src (.s v) = .ok p) : (str ".css") <:+ p := by
  have hfv : isFile v = true := stylesheet_isFile v hv
  unfold getOutFile at h
  dsimp only at h
  simp only [hfv, if_true] at h
  split at h <;>
  · cases h
    exact pathResolve_suffix _ _ _ (by decide) (by decide) (by decide)
      (by decide) (cssNormalize_suffix v hv)

theorem splitSlash_ne_nil (s : Str) : splitSlash s ≠ [] := by
  cases s with
  | nil => simp [splitSlash]
  | cons c cs =>
    unfold splitSlash
    cases splitSlash cs with
    | nil => simp
    | cons s0 ss =>
      dsimp only
      split <;> simp

theorem splitSlash_no_slash_mem (s : Str) :
    ∀ seg ∈ splitSlash s, '/' ∉ seg := by
  induction s with
  | nil =>
    intro seg hseg
    simp [splitSlash] at hseg
    simp [hseg]
  | cons c cs ih =>
    intro seg hseg
    unfold splitSlash at hseg
    cases hsp : splitSlash cs with
    | nil => exact absurd hsp (splitSlash_ne_nil cs)
    | cons s0 ss =>
      rw [hsp] at hseg
      by_cases hc : c = '/'
      · simp only [hc, if_true] at hseg
        rcases List.mem_cons.mp hseg with h' | h'
        · simp [h']
        · exact ih seg (hsp ▸ h')
      · simp only [hc, if_false] at hseg
        rcases List.mem_cons.mp hseg with h' | h'
        · subst h'
          intro hm
          rcases List.mem_cons.mp hm with h'' | h''
          · exact hc h''.symm
          · exact ih s0 (hsp ▸ List.mem_cons_self s0 ss) h''
        · exact ih seg (hsp ▸ List.mem_cons_of_mem s0 h')

theorem basename_no_slash (p : Str) : '/' ∉ basename p := by
  unfold basename
  cases hsp : (splitSlash (dropTrailingSlashes p)).reverse with
  | nil => simp
  | cons s0 ss =>
    have hmem : s0 ∈ splitSlash (dropTrailingSlashes p) := by
      have : s0 ∈ (splitSlash (dropTrailingSlashes p)).reverse := by
        rw [hsp]; exact List.mem_cons_self s0 ss
      exact List.mem_reverse.mp this
    exact splitSlash_no_slash_mem _ s0 hmem

theorem stylesheetSuffix_mono (s t : Str) (h : stylesheetSuffix s = true)
    (hst : s <:+ t) : stylesheetSuffix t = true := by
  simp only [stylesheetSuffix, Bool.or_eq_true, decide_eq_true_eq] at h ⊢
  rcases h with (h | h) | h
  · exact Or.inl (Or.inl (h.trans hst))
  · exact Or.inl (Or.inr (h.trans hst))
  · exact Or.inr (h.trans hst)

theorem stylesheet_ne_conds (bn : Str) (h : stylesheetSuffix bn = true) :
    bn ≠ [] ∧ bn ≠ str "." ∧ bn ≠ str ".." := by
  simp only [stylesheetSuffix, Bool.or_eq_true, decide_eq_true_eq] at h
  rcases h with (h | h) | h
  · exact suffix_last_conds _ bn (by decide) (by decide) (by decide) h
  · exact suffix_last_conds _ bn (by decide) (by decide) (by decide) h
  · exact suffix_last_conds _ bn (by decide) (by decide) (by decide) h

theorem getOutFile_s_dir (cwd src v p : Str)
    (hsrc : isFile src = true) (hv : isFile v = false)
    (hbn : stylesheetSuffix (basename src) = true)
    (h : getOutFile cwd src (.s v) = .ok p) : (str ".css") <:+ p := by
  unfold getOutFile at h
  dsimp only at h
  rw [if_pos hsrc] at h
  simp only [hv, Bool.false_eq_true, if_false] at h
  obtain ⟨b0, b1, b2⟩ := stylesheet_ne_conds (basename src) hbn
  have hpj := pathJoin_suffix v (basename src) b0 b1 b2 (basename_no_slash src)
  have hss := stylesheetSuffix_mono _ _ hbn hpj
  split at h
  · cases h
    exact pathResolve_suffix _ _ _ (by decide) (by decide) (by decide)
      (by decide) (cssNormalize_suffix _ hss)
  · cases h

theorem getTasks1_dest (cwd src : Str) (o : Options) (t : Task)
    (h : getTasks1 cwd src o = .ok t) :
    (∀ p, t.outFile = some p → isAbsolute p = true) ∧
    (∀ q, t.sourceMap = some q → isAbsolute q = true ∧ (str ".map") <:+ q) := by
  unfold getTasks1 at h
  simp only [bind, Except.bind, pure, Except.pure] at h
  repeat' split at h
  all_goals cases h
  all_goals constructor
  all_goals intro x hx
  all_goals dsimp only at hx
  all_goals try simp at hx
  all_goals try subst hx
  all_goals
    first
    | exact getOutFile_abs _ _ _ _ (by assumption)
    | exact getSourceMap_ok _ _ _ _ (by assumption)


/-! ## C3 — destination invariants -/

/-- C3, counterexample: a user-supplied `outFile` with a non-stylesheet
extension is *not* normalized to `.css`: the extension rewrite only
replaces a trailing `.sass`/`.scss`/`.css`, so `dest/a.txt` survives and
the built job's `outFile` is an absolute path ending in `.txt`. -/
theorem c3_destination_invariant_counterexample :
    getTasks1 (str "/w") (str "src/a.scss")
        { outFile := some (.s (str "dest/a.txt")) } =
      .ok { file := some (str "src/a.scss"),
            outFile := some (str "/w/dest/a.txt") } ∧
    ¬ (str ".css") <:+ (str "/w/dest/a.txt") := by decide

/-- C3, amended: in every built job, `outFile` and the source-map path are
always absolute when present, and the source-map path always ends in
`.map`; `outFile` ends in `.css` whenever the value the extension rewrite
sees ends in a stylesheet extension — in particular for a string
destination with a stylesheet extension, and for a directory destination
joined with a stylesheet-suffixed source basename — while a non-stylesheet
extension supplied by the user is preserved verbatim. -/
theorem c3_destination_invariant :
    (∀ cwd src o t, getTasks1 cwd src o = .ok t →
      (∀ p, t.outFile = some p → isAbsolute p = true) ∧
      (∀ q, t.sourceMap = some q →
        isAbsolute q = true ∧ (str ".map") <:+ q)) ∧
    (∀ cwd src v p, stylesheetSuffix v = true →
      getOutFile cwd src (.s v) = .ok p → (str ".css") <:+ p) ∧
    (∀ cwd src v p, isFile src = true → isFile v = false →
      stylesheetSuffix (basename src) = true →
      getOutFile cwd src (.s v) = .ok p → (str ".css") <:+ p) :=
  ⟨getTasks1_dest, getOutFile_s_stylesheet, getOutFile_s_dir⟩

/-- C3, witness: the amended invariant evaluated on a job carrying both an
`outFile` (from a `.sass`-suffixed spec, normalized to `.css`) and a
source map, and on a directory destination. -/
theorem c3_destination_invariant_witness :
    ((str ".css") <:+ (str "/w/dest/a.css")) ∧
    (isAbsolute (str "/w/out.css.map") = true ∧
      (str ".map") <:+ (str "/w/out.css.map")) ∧
    ((str ".css") <:+ (str "/w/dest/a.css")) :=
  ⟨c3_destination_invariant.2.1 (str "/w") (str "a.scss")
      (str "dest/a.sass") (str "/w/dest/a.css") (by decide) (by decide),
   (c3_destination_invariant.1 (str "/w") (str "a.scss")
      { output := some (.s (str "out.css")), sourceMap := some (.b true) }
      { file := some (str "a.scss"), outFile := some (str "/w/out.css"),
        sourceMap := some (str "/w/out.css.map") } (by decide)).2
      (str "/w/out.css.map") (by decide),
   c3_destination_invariant.2.2 (str "/w") (str "a.scss") (str "dest")
      (str "/w/dest/a.css") (by decide) (by decide) (by decide) (by decide)⟩

/-! ## C2 — reducer machinery -/

/-- Specification-side image of the reducer's grouping phase: for each
first-seen `outFile`, the first task paired with all of its group's sources
in original order. -/
def specGroupsPairs (st : Bool) : List Task → List (Task × List Str)
  | [] => []
  | t :: ts =>
    (t, srcOf st t ::
        (ts.filter (fun u => decide (u.outFile = t.outFile))).map (srcOf st)) ::
      specGroupsPairs st (ts.filter (fun u => !decide (u.outFile = t.outFile)))
termination_by l => l.length
decreasing_by
  simp only [List.length_cons]
  exact Nat.lt_succ_of_le (List.length_filter_le _ _)

/-- Proof device: how a fold over `ts` extends the already-accumulated
groups — slot `i` (keyed by the lookup list) collects the sources of every
task of `ts` with that `outFile`. -/
def bump (st : Bool) (ts : List Task) :
    List (Option Str) → List (Task × List Str) → List (Task × List Str)
  | k :: L, p :: R =>
    (p.1, p.2 ++ (ts.filter (fun u => decide (u.outFile = k))).map (srcOf st)) ::
      bump st ts L R
  | _, R => R

theorem updateAt_length (n : Nat) (f : α → α) (l : List α) :
    (updateAt n f l).length = l.length := by
  induction l generalizing n with
  | nil => cases n <;> rfl
  | cons a as ih =>
    cases n with
    | zero => rfl
    | succ m => simp [updateAt, ih]

theorem idxOf_none_not_mem (k : Option Str) (l : List (Option Str))
    (h : idxOf k l = none) : k ∉ l := by
  induction l with
  | nil => simp
  | cons k' ks ih =>
    unfold idxOf at h
    by_cases hk : k' = k
    · simp [hk] at h
    · simp only [hk, if_false] at h
      intro hm
      rcases List.mem_cons.mp hm with h' | h'
      · exact hk h'.symm
      · exact ih (by cases hi : idxOf k ks <;> simp [hi] at h ⊢) h'

theorem idxOf_some_mem (k : Option Str) (l : List (Option Str)) (i : Nat)
    (h : idxOf k l = some i) : k ∈ l := by
  induction l generalizing i with
  | nil => simp [idxOf] at h
  | cons k' ks ih =>
    unfold idxOf at h
    by_cases hk : k' = k
    · simp [hk]
    · simp only [hk, if_false] at h
      cases hi : idxOf k ks with
      | none => rw [hi] at h; simp at h
      | some j => exact List.mem_cons_of_mem k' (ih j hi)

theorem bump_nil (st : Bool) (L : List (Option Str))
    (R : List (Task × List Str)) (hlen : L.length = R.length) :
    bump st [] L R = R := by
  induction L generalizing R with
  | nil =>
    cases R with
    | nil => rfl
    | cons p R' => simp at hlen
  | cons k L' ih =>
    cases R with
    | nil => simp at hlen
    | cons p R' =>
      simp only [bump, List.filter_nil, List.map_nil, List.append_nil]
      rw [ih R' (by simpa using hlen)]

theorem bump_fresh (st : Bool) (t : Task) (ts : List Task) :
    ∀ (L : List (Option Str)) (R : List (Task × List Str)),
      t.outFile ∉ L → bump st (t :: ts) L R = bump st ts L R := by
  intro L
  induction L with
  | nil => intro R _; rfl
  | cons k L' ih =>
    intro R hnm
    cases R with
    | nil => rfl
    | cons p R' =>
      have hk : ¬ t.outFile = k := fun h => hnm (by simp [h])
      simp only [bump]
      rw [ih R' (fun h => hnm (List.mem_cons_of_mem k h))]
      have : (t :: ts).filter (fun u => decide (u.outFile = k)) =
          ts.filter (fun u => decide (u.outFile = k)) := by
        simp [List.filter_cons, hk]
      rw [this]

theorem bump_append (st : Bool) (ts : List Task) (k : Option Str)
    (p : Task × List Str) :
    ∀ (L : List (Option Str)) (R : List (Task × List Str)),
      L.length = R.length →
      bump st ts (L ++ [k]) (R ++ [p]) =
        bump st ts L R ++
          [(p.1, p.2 ++ (ts.filter (fun u => decide (u.outFile = k))).map (srcOf st))] := by
  intro L
  induction L with
  | nil =>
    intro R hlen
    cases R with
    | nil => rfl
    | cons q R' => simp at hlen
  | cons k' L' ih =>
    intro R hlen
    cases R with
    | nil => simp at hlen
    | cons q R' =>
      simp only [List.cons_append, bump, List.append_eq]
      rw [ih R' (by simpa using hlen)]

theorem bump_update (st : Bool) (t : Task) (ts : List Task) :
    ∀ (L : List (Option Str)) (R : List (Task × List Str)) (i : Nat),
      L.Nodup → L.length = R.length → idxOf t.outFile L = some i →
      bump st ts L (updateAt i (fun p => (p.1, p.2 ++ [srcOf st t])) R) =
        bump st (t :: ts) L R := by
  intro L
  induction L with
  | nil => intro R i _ _ hidx; simp [idxOf] at hidx
  | cons k L' ih =>
    intro R i hnod hlen hidx
    cases R with
    | nil => simp at hlen
    | cons p R' =>
      unfold idxOf at hidx
      by_cases hk : k = t.outFile
      · simp only [hk, if_true] at hidx
        have hi : i = 0 := by injection hidx with h'; exact h'.symm
        subst hi
        simp only [updateAt, bump]
        have hfil : (t :: ts).filter (fun u => decide (u.outFile = k)) =
            t :: ts.filter (fun u => decide (u.outFile = k)) := by
          simp [List.filter_cons, hk.symm]
        rw [hfil]
        have hnm : t.outFile ∉ L' := hk ▸ (List.nodup_cons.mp hnod).1
        rw [bump_fresh st t ts L' R' hnm]
        simp
      · simp only [hk, if_false] at hidx
        cases hi : idxOf t.outFile L' with
        | none => rw [hi] at hidx; simp at hidx
        | some j =>
          rw [hi] at hidx
          simp at hidx
          subst hidx
          simp only [updateAt, bump]
          have hd : (decide (t.outFile = k)) = false := by
            simp only [decide_eq_false_iff_not]
            exact fun h => hk h.symm
          have hfil : (t :: ts).filter (fun u => decide (u.outFile = k)) =
              ts.filter (fun u => decide (u.outFile = k)) := by
            simp [List.filter_cons, hd]
          rw [hfil,
            ih R' j (List.nodup_cons.mp hnod).2 (by simpa using hlen) hi]

/-- The grouping fold of `reduceTasksByOutFile`, from any well-formed
accumulator: known keys collect their sources in place, fresh keys open new
groups in first-seen order. -/
theorem foldl_reduceStep (st : Bool) :
    ∀ (ts : List Task) (L : List (Option Str)) (R : List (Task × List Str)),
      L.Nodup → L.length = R.length →
      ts.foldl (reduceStep st) (L, R) =
        (L ++ (specGroupsPairs st
            (ts.filter (fun u => decide (u.outFile ∉ L)))).map (fun p => p.1.outFile),
         bump st ts L R ++
           specGroupsPairs st (ts.filter (fun u => decide (u.outFile ∉ L)))) := by
  intro ts
  induction ts with
  | nil =>
    intro L R hnod hlen
    simp [specGroupsPairs, bump_nil st L R hlen]
  | cons t ts' ih =>
    intro L R hnod hlen
    simp only [List.foldl_cons]
    cases hidx : idxOf t.outFile L with
    | some i =>
      have hmem := idxOf_some_mem _ _ _ hidx
      have hstep : reduceStep st (L, R) t =
          (L, updateAt i (fun p => (p.1, p.2 ++ [srcOf st t])) R) := by
        simp [reduceStep, hidx]
      rw [hstep,
        ih L _ hnod (by rw [updateAt_length]; exact hlen)]
      have hfeq : (t :: ts').filter (fun u => decide (u.outFile ∉ L)) =
          ts'.filter (fun u => decide (u.outFile ∉ L)) := by
        simp [List.filter_cons, hmem]
      rw [bump_update st t ts' L R i hnod hlen hidx, hfeq]
    | none =>
      have hnm := idxOf_none_not_mem _ _ hidx
      have hstep : reduceStep st (L, R) t =
          (L ++ [t.outFile], R ++ [(t, [srcOf st t])]) := by
        simp [reduceStep, hidx]
      have hnod' : (L ++ [t.outFile]).Nodup := by
        simp [List.nodup_append, hnod]
        exact hnm
      have hlen' : (L ++ [t.outFile]).length = (R ++ [(t, [srcOf st t])]).length := by
        simp [hlen]
      rw [hstep, ih (L ++ [t.outFile]) (R ++ [(t, [srcOf st t])]) hnod' hlen']
      have hA : (t :: ts').filter (fun u => decide (u.outFile ∉ L)) =
          t :: ts'.filter (fun u => decide (u.outFile ∉ L)) := by
        simp [List.filter_cons, hnm]
      have hB : ((ts'.filter (fun u => decide (u.outFile ∉ L))).filter
            (fun u => decide (u.outFile = t.outFile))) =
          ts'.filter (fun u => decide (u.outFile = t.outFile)) := by
        rw [List.filter_filter]
        apply List.filter_congr
        intro u _
        by_cases h2 : u.outFile = t.outFile
        · simp [h2, hnm]
        · simp [h2]
      have hC : ((ts'.filter (fun u => decide (u.outFile ∉ L))).filter
            (fun u => !decide (u.outFile = t.outFile))) =
          ts'.filter (fun u => decide (u.outFile ∉ L ++ [t.outFile])) := by
        rw [List.filter_filter]
        apply List.filter_congr
        intro u _
        by_cases h1 : u.outFile ∈ L <;> by_cases h2 : u.outFile = t.outFile <;>
          simp [h1, h2]
      have hbf : bump st (t :: ts') L R = bump st ts' L R :=
        bump_fresh st t ts' L R hnm
      have hba := bump_append st ts' t.outFile (t, [srcOf st t]) L R hlen
      rw [hA]
      rw [specGroupsPairs]
      rw [hB, hC, hbf, hba]
      simp [List.append_assoc]

/-- The reducer equals the specification-side grouping followed by the
finalization map. -/
theorem reduceTasks_eq (cwd : Str) (t0 : Task) (ts : List Task) :
    reduceTasksByOutFile cwd (t0 :: ts) =
      (specGroupsPairs (strOptTruthy t0.data) (t0 :: ts)).map
        (finalizeGroup cwd (strOptTruthy t0.data)) := by
  unfold reduceTasksByOutFile
  dsimp only
  rw [foldl_reduceStep _ (t0 :: ts) [] [] (by simp) rfl]
  have hfil : (t0 :: ts).filter
      (fun u => decide (u.outFile ∉ ([] : List (Option Str)))) = t0 :: ts := by
    apply List.filter_eq_self.mpr
    intro u _
    simp
  simp only [hfil]
  rfl

theorem filterMap_file (l : List Task)
    (h : ∀ t ∈ l, t.file.isSome = true) :
    l.filterMap Task.file = l.map (srcOf false) := by
  induction l with
  | nil => rfl
  | cons t ts ih =>
    cases hf : t.file with
    | none =>
      have := h t (List.mem_cons_self t ts)
      rw [hf] at this
      simp at this
    | some s =>
      simp only [List.filterMap_cons, hf, List.map_cons]
      rw [ih (fun u hu => h u (List.mem_cons_of_mem t hu))]
      simp [srcOf, hf]

/-- For file-content tasks, finalizing the collected groups is exactly the
spec's merge of the first-seen `outFile` groups. -/
theorem specGroups_merge (cwd : Str) :
    ∀ (n : Nat) (tasks : List Task), tasks.length ≤ n →
      (∀ t ∈ tasks, t.data = none ∧ t.file.isSome = true) →
      (specGroupsPairs false tasks).map (finalizeGroup cwd false) =
        (groupsByOutFile tasks).map (mergeFileGroup cwd) := by
  intro n
  induction n with
  | zero =>
    intro tasks hlen _
    have : tasks = [] := List.length_eq_zero.mp (Nat.le_zero.mp hlen)
    subst this
    simp [specGroupsPairs, groupsByOutFile]
  | succ n ih =>
    intro tasks hlen hall
    cases tasks with
    | nil => simp [specGroupsPairs, groupsByOutFile]
    | cons t ts =>
      rw [specGroupsPairs, groupsByOutFile]
      simp only [List.map_cons]
      congr 1
      · obtain ⟨hd, hf⟩ := hall t (List.mem_cons_self t ts)
        cases hfe : ts.filter (fun u => decide (u.outFile = t.outFile)) with
        | nil =>
          simp only [hfe, List.map_nil, finalizeGroup, mergeFileGroup]
          cases hsome : t.file with
          | none => rw [hsome] at hf; simp at hf
          | some s =>
            cases t
            simp_all [srcOf]
        | cons u us =>
          simp only [hfe, List.map_cons, finalizeGroup, mergeFileGroup]
          have hmem : ∀ x ∈ t :: u :: us, x.file.isSome = true := by
            intro x hx
            rcases List.mem_cons.mp hx with rfl | hx'
            · exact hf
            · have : x ∈ ts.filter (fun u => decide (u.outFile = t.outFile)) := by
                rw [hfe]; exact hx'
              exact (hall x (List.mem_cons_of_mem t
                (List.mem_of_mem_filter this))).2
          rw [filterMap_file _ hmem]
          simp [srcOf]
      · apply ih
        · have hle := List.length_filter_le
            (fun u => !decide (u.outFile = t.outFile)) ts
          simp only [List.length_cons] at hlen
          omega
        · intro u hu
          exact hall u (List.mem_cons_of_mem t (List.mem_of_mem_filter hu))

/-- C2: for every non-empty list of file-source tasks, the reducer merges
each group of tasks sharing an `outFile` (two or more members) into a
single task whose `data` is the import directives of the members' resolved
source paths, one per source in original task order, joined by newlines,
with the `file` field dropped; singleton groups pass through unchanged, and
groups appear in first-seen order. -/
theorem c2_reducer_merges_file_groups (cwd : Str) (t0 : Task) (ts : List Task)
    (h : ∀ t ∈ t0 :: ts, t.data = none ∧ t.file.isSome = true) :
    reduceTasksByOutFile cwd (t0 :: ts) =
      (groupsByOutFile (t0 :: ts)).map (mergeFileGroup cwd) := by
  have hst : strOptTruthy t0.data = false := by
    rw [(h t0 (List.mem_cons_self t0 ts)).1]
    rfl
  rw [reduceTasks_eq, hst]
  exact specGroups_merge cwd (t0 :: ts).length (t0 :: ts) (le_refl _) h

/-- C2, witness: two file tasks sharing one `outFile`. -/
theorem c2_reducer_merges_file_groups_witness :
    reduceTasksByOutFile (str "/w")
      [{ file := some (str "a.scss"), outFile := some (str "/w/o.css") },
       { file := some (str "b.scss"), outFile := some (str "/w/o.css") }] =
      (groupsByOutFile
        [{ file := some (str "a.scss"), outFile := some (str "/w/o.css") },
         { file := some (str "b.scss"), outFile := some (str "/w/o.css") }]).map
        (mergeFileGroup (str "/w")) :=
  c2_reducer_merges_file_groups (str "/w")
    { file := some (str "a.scss"), outFile := some (str "/w/o.css") }
    [{ file := some (str "b.scss"), outFile := some (str "/w/o.css") }]
    (by decide)

/-! ## C6 — sync/async equivalence -/

/-- The two source resolvers are the same accumulation, so the two entry
points derive their sources — and hence their task lists — identically. -/
theorem resolveSources_eq (env : Env) (o : Options) :
    resolveSourcesAsync env o = resolveSourcesSync env o := rfl

/-- A synchronous write that succeeded is reproduced exactly by the
asynchronous write (they differ only on failures). -/
theorem writeFile_of_sync (env : Env) (c p : Str) (l : List (Str × Str))
    (h : writeFileSync env c p = .ok l) : writeFile env c p = .ok l := by
  unfold writeFileSync at h
  unfold writeFile
  cases hd : env.ensureDir (dirname p) with
  | error e => rw [hd] at h; cases h
  | ok u => rw [hd] at h; exact h

/-- Per-task write transfer from the sync to the async primitive. -/
theorem writeTask_of_sync (env : Env) (t : Task) (r : CompileResult)
    (l : List (Str × Str)) (h : writeTask (writeFileSync env) t r = .ok l) :
    writeTask (writeFile env) t r = .ok l := by
  unfold writeTask at h ⊢
  simp only [bind, Except.bind] at h ⊢
  cases ho : requireStr t.outFile with
  | error e => simp [ho] at h
  | ok out =>
    simp only [ho] at h ⊢
    cases hw : writeFileSync env r.css out with
    | error e => simp [hw] at h
    | ok l1 =>
      simp only [hw] at h
      simp only [writeFile_of_sync env r.css out l1 hw]
      cases hm : r.map with
      | none => simp only [hm] at h ⊢; exact h
      | some m =>
        simp only [hm] at h ⊢
        cases hs : requireStr t.sourceMap with
        | error e => simp [hs] at h
        | ok sm =>
          simp only [hs] at h ⊢
          cases hw2 : writeFileSync env m sm with
          | error e => simp [hw2] at h
          | ok l2 =>
            simp only [hw2] at h
            simp only [writeFile_of_sync env m sm l2 hw2]
            exact h

/-- Whole-run write transfer from the sync to the async mode. -/
theorem writeAll_of_sync (env : Env) (lst : List (Task × CompileResult))
    (l : List (Str × Str)) (h : writeAll (writeFileSync env) lst = .ok l) :
    writeAll (writeFile env) lst = .ok l := by
  induction lst generalizing l with
  | nil => exact h
  | cons tr rest ih =>
    obtain ⟨t, r⟩ := tr
    unfold writeAll at h ⊢
    simp only [bind, Except.bind] at h ⊢
    cases hw : writeTask (writeFileSync env) t r with
    | error e => simp [hw] at h
    | ok l1 =>
      simp only [hw] at h
      simp only [writeTask_of_sync env t r l1 hw]
      cases hrest : writeAll (writeFileSync env) rest with
      | error e => simp [hrest] at h
      | ok l2 =>
        simp only [hrest] at h
        simp only [ih l2 hrest]
        exact h

/-- C6: on every request on which `renderSync` succeeds, the asynchronous
pipeline succeeds with the identical value — the same derived task list
(both entry points share the derivation verbatim), the same marshalled
results, and the same persisted `(path, contents)` files — and `render`
fulfills with those same results, with or without a callback. -/
theorem c6_sync_async_equivalence (env : Env) (o : Options)
    (out : Marshal × List (Str × Str)) (h : renderSync env o = .ok out) :
    renderPipeline env o = .ok out ∧
    render env o false = (.ok (some out.1), []) ∧
    render env o true = (.ok (some out.1), [.success out.1]) := by
  cases hval : validateOptions o with
  | error e => simp [renderSync, bind, Except.bind, pure, Except.pure, hval] at h
  | ok o1 =>
    have hrs : resolveSourcesAsync env o1 = resolveSourcesSync env o1 := rfl
    cases hbuild : buildTaskList env (resolveSourcesSync env o1) o1 with
    | error e => simp [renderSync, bind, Except.bind, pure, Except.pure, hval, hbuild] at h
    | ok tasks =>
      cases hcomp : tasks.mapM env.compile with
      | error e =>
        have hcomp' : List.mapM.loop env.compile tasks [] = Except.error e :=
          hcomp
        simp [renderSync, bind, Except.bind, pure, Except.pure, hval, hbuild, hcomp'] at h
      | ok compiled =>
        have hcomp' : List.mapM.loop env.compile tasks [] =
            Except.ok compiled := hcomp
        by_cases hout : outSpecTruthy o1.output = true
        · cases hw : writeAll (writeFileSync env) (tasks.zip compiled) with
          | error e =>
            simp [renderSync, bind, Except.bind, pure, Except.pure, hval, hbuild, hcomp',
              hout, hw] at h
          | ok log =>
            have hsub : out = (marshalArray compiled, log) := by
              simp [renderSync, bind, Except.bind, pure, Except.pure, hval, hbuild, hcomp',
                hout, hw] at h
              exact h.symm
            subst hsub
            have hpipe : renderPipeline env o =
                .ok (marshalArray compiled, log) := by
              simp [renderPipeline, bind, Except.bind, pure, Except.pure, hval, hrs, hbuild,
                hcomp', hout, writeAll_of_sync env _ _ hw]
            exact ⟨hpipe, by simp [render, hpipe], by simp [render, hpipe]⟩
        · have hsub : out = (marshalArray compiled, []) := by
            simp [renderSync, bind, Except.bind, pure, Except.pure, hval, hbuild, hcomp',
              hout] at h
            exact h.symm
          subst hsub
          have hpipe : renderPipeline env o =
              .ok (marshalArray compiled, []) := by
            simp [renderPipeline, bind, Except.bind, pure, Except.pure, hval, hrs, hbuild,
              hcomp', hout]
          exact ⟨hpipe, by simp [render, hpipe], by simp [render, hpipe]⟩

/-- C6, witness: a concrete file request with persistence, evaluated in
both modes. -/
theorem c6_sync_async_equivalence_witness :
    renderPipeline envA
        { file := some (.one (str "a.scss")), output := some (.s (str "out")) } =
      .ok (.one { css := str "c" }, [(str "/w/out/a.css", str "c")]) :=
  (c6_sync_async_equivalence envA
    { file := some (.one (str "a.scss")), output := some (.s (str "out")) }
    (.one { css := str "c" }, [(str "/w/out/a.css", str "c")]) (by decide)).1

end NodeSassExtra
